import Mathlib

/-!
Verification of `is_image_or_video` from
`src/ai-services/mafm/mafm/rag/C_library/utils.c`.

A C string is modelled as a `List Char` (the characters before the
terminating NUL).  `strrchr` returns a pointer into the string, modelled
here as the suffix of the list beginning at the last occurrence of the
sought character, or `none` for `NULL`.
-/

/-- Embedding of C `strrchr(s, c)`: the suffix of `s` beginning at the last
occurrence of `c`, or `none` (for `NULL`) when `c` does not occur in `s`. -/
def strrchr (s : List Char) (c : Char) : Option (List Char) :=
  match s with
  | [] => none
  | x :: xs =>
    match strrchr xs c with
    | some r => some r
    | none => if x = c then some (x :: xs) else none

/-- The five media extensions hard-coded in `is_image_or_video`. -/
def mediaExtsData : List (List Char) :=
  [".jpg".data, ".png".data, ".mp4".data, ".avi".data, ".mp3".data]

/-- Embedding of `is_image_or_video` from `utils.c`:

    int is_image_or_video(const char* filename) {
        const char *ext = strrchr(filename, '.');
        if (!ext) { return 0; }
        if (strcmp(ext, ".jpg") == 0 || strcmp(ext, ".png") == 0 ||
            strcmp(ext, ".mp4") == 0 || strcmp(ext, ".avi") == 0 ||
            strcmp(ext, ".mp3") == 0) { return 1; }
        return 0;
    }

`strcmp(ext, lit) == 0` is equality of the character lists. -/
def is_image_or_video (filename : List Char) : Int :=
  match strrchr filename '.' with
  | none => 0
  | some ext =>
    if ext = ".jpg".data ∨ ext = ".png".data ∨ ext = ".mp4".data ∨
       ext = ".avi".data ∨ ext = ".mp3".data then 1 else 0

/-- Membership in the allow-list is the five-way disjunction used by the
chain of `strcmp` calls in the source. -/
theorem mem_mediaExtsData_iff (e : List Char) :
    e ∈ mediaExtsData ↔
      (e = ".jpg".data ∨ e = ".png".data ∨ e = ".mp4".data ∨
       e = ".avi".data ∨ e = ".mp3".data) := by
  simp [mediaExtsData]

/-- `strrchr` returns `NULL` on a string not containing the character. -/
theorem strrchr_of_not_mem (s : List Char) (c : Char) (h : c ∉ s) :
    strrchr s c = none := by
  induction s with
  | nil => rfl
  | cons x xs ih =>
    have hx : ¬ x = c := fun he => h (he ▸ List.mem_cons_self x xs)
    have hxs : c ∉ xs := fun hm => h (List.mem_cons_of_mem x hm)
    simp [strrchr, ih hxs, hx]

/-- If `strrchr` returns `NULL`, the character does not occur. -/
theorem not_mem_of_strrchr_eq_none (s : List Char) (c : Char)
    (h : strrchr s c = none) : c ∉ s := by
  induction s with
  | nil => simp
  | cons x xs ih =>
    intro hmem
    rw [strrchr] at h
    cases hr : strrchr xs c with
    | some r => rw [hr] at h; simp at h
    | none =>
      rw [hr] at h
      by_cases hx : x = c
      · simp [hx] at h
      · rcases List.mem_cons.mp hmem with h1 | h1
        · exact hx h1.symm
        · exact ih hr h1

/-- `strrchr` on a string decomposed at the last occurrence of `c` returns
the suffix starting at that occurrence. -/
theorem strrchr_append_cons (pre rest : List Char) (c : Char)
    (h : c ∉ rest) : strrchr (pre ++ c :: rest) c = some (c :: rest) := by
  induction pre with
  | nil =>
    rw [List.nil_append, strrchr, strrchr_of_not_mem rest c h]
    simp
  | cons x pre ih =>
    rw [List.cons_append, strrchr, ih]

/-- A non-`NULL` result of `strrchr` is the suffix starting at the last
occurrence of `c`: the string splits as `pre ++ c :: rest` with no further
occurrence of `c` in `rest`. -/
theorem strrchr_eq_some (s r : List Char) (c : Char)
    (h : strrchr s c = some r) :
    ∃ pre rest, s = pre ++ c :: rest ∧ c ∉ rest ∧ r = c :: rest := by
  induction s generalizing r with
  | nil => simp [strrchr] at h
  | cons x xs ih =>
    rw [strrchr] at h
    cases hr : strrchr xs c with
    | some r2 =>
      rw [hr] at h
      simp only [Option.some.injEq] at h
      obtain ⟨pre, rest, h1, h2, h3⟩ := ih r2 hr
      exact ⟨x :: pre, rest, by rw [h1, List.cons_append], h2, h ▸ h3⟩
    | none =>
      rw [hr] at h
      by_cases hx : x = c
      · rw [if_pos hx] at h
        simp only [Option.some.injEq] at h
        refine ⟨[], xs, by rw [hx, List.nil_append], ?_, by rw [← h, hx]⟩
        exact not_mem_of_strrchr_eq_none xs c hr
      · rw [if_neg hx] at h
        simp at h

/-- Unfolding of `is_image_or_video` when `strrchr` finds a dot. -/
theorem is_image_or_video_strrchr_some (s ext : List Char)
    (hr : strrchr s '.' = some ext) :
    is_image_or_video s =
      if ext = ".jpg".data ∨ ext = ".png".data ∨ ext = ".mp4".data ∨
         ext = ".avi".data ∨ ext = ".mp3".data then 1 else 0 := by
  rw [is_image_or_video, hr]

/-- Evaluation of `is_image_or_video` on a filename decomposed at its last
dot: the result is decided solely by membership of the final segment in the
allow-list. -/
theorem is_image_or_video_append_aux (pre rest : List Char)
    (h : '.' ∉ rest) :
    is_image_or_video (pre ++ '.' :: rest) =
      if ('.' :: rest) ∈ mediaExtsData then 1 else 0 := by
  rw [is_image_or_video, strrchr_append_cons pre rest '.' h]
  simp only [mem_mediaExtsData_iff]

/-- Claim C1: for every filename, `is_image_or_video` returns true (1) if
and only if the filename contains a dot and the substring from the last
dot to the end of the filename equals one of the five listed extensions. -/
theorem is_image_or_video_eq_one_iff (s : List Char) :
    is_image_or_video s = 1 ↔
      ('.' ∈ s ∧ ∃ pre rest, s = pre ++ '.' :: rest ∧ '.' ∉ rest ∧
        ('.' :: rest) ∈ mediaExtsData) := by
  constructor
  · intro h
    cases hr : strrchr s '.' with
    | none =>
      rw [is_image_or_video, hr] at h
      exact absurd h (by norm_num)
    | some ext =>
      rw [is_image_or_video_strrchr_some s ext hr] at h
      obtain ⟨pre, rest, h1, h2, h3⟩ := strrchr_eq_some s ext '.' hr
      by_cases hp : ext = ".jpg".data ∨ ext = ".png".data ∨
          ext = ".mp4".data ∨ ext = ".avi".data ∨ ext = ".mp3".data
      · refine ⟨by rw [h1]; simp, pre, rest, h1, h2, ?_⟩
        rw [← h3, mem_mediaExtsData_iff]
        exact hp
      · rw [if_neg hp] at h
        exact absurd h (by norm_num)
  · rintro ⟨hdot, pre, rest, h1, h2, hmem⟩
    rw [h1, is_image_or_video_append_aux pre rest h2, if_pos hmem]

/-- Claim C2: a filename containing no dot is classified negatively (the
function returns 0, not an error). -/
theorem is_image_or_video_no_dot (s : List Char) (h : '.' ∉ s) :
    is_image_or_video s = 0 := by
  rw [is_image_or_video, strrchr_of_not_mem s '.' h]

/-- Witness for C2 at the spec example "readme". -/
theorem is_image_or_video_no_dot_witness :
    '.' ∉ "readme".data ∧ is_image_or_video "readme".data = 0 :=
  ⟨by decide, is_image_or_video_no_dot "readme".data (by decide)⟩

/-- Claim C3: every filename ending in exactly one of the five listed
extensions is classified as media (returns 1). -/
theorem is_image_or_video_media_suffix (pre e : List Char)
    (he : e ∈ mediaExtsData) : is_image_or_video (pre ++ e) = 1 := by
  have key : ∀ rest : List Char, '.' ∉ rest →
      ('.' :: rest) ∈ mediaExtsData →
      is_image_or_video (pre ++ '.' :: rest) = 1 := by
    intro rest h1 h2
    rw [is_image_or_video_append_aux pre rest h1, if_pos h2]
  rcases (mem_mediaExtsData_iff e).mp he with h | h | h | h | h <;>
    rw [h] <;>
    exact key _ (by decide) (by decide)

/-- Witness for C3 at the spec examples "clip.mp4" and "photo.png". -/
theorem is_image_or_video_media_suffix_witness :
    ".mp4".data ∈ mediaExtsData ∧
      is_image_or_video ("clip".data ++ ".mp4".data) = 1 ∧
      is_image_or_video ("photo".data ++ ".png".data) = 1 :=
  ⟨by decide, is_image_or_video_media_suffix "clip".data ".mp4".data
      (by decide),
    is_image_or_video_media_suffix "photo".data ".png".data (by decide)⟩

/-- Claim C4: extension matching is case-sensitive: "PHOTO.PNG" is rejected
while the lower-case "photo.png" is accepted. -/
theorem is_image_or_video_case_sensitive :
    is_image_or_video "PHOTO.PNG".data = 0 ∧
      is_image_or_video "photo.png".data = 1 := by
  constructor <;> decide

/-- Claim C5: only the substring from the final dot is compared against the
allow-list; any earlier dots in the filename are irrelevant. -/
theorem is_image_or_video_last_dot_only (pre rest : List Char)
    (h : '.' ∉ rest) :
    is_image_or_video (pre ++ '.' :: rest) =
      if ('.' :: rest) ∈ mediaExtsData then 1 else 0 :=
  is_image_or_video_append_aux pre rest h

/-- Witness for C5 at the spec example "archive.tar.mp3", whose final
segment ".mp3" matches although the filename has an earlier dot. -/
theorem is_image_or_video_last_dot_only_witness :
    '.' ∉ "mp3".data ∧
      is_image_or_video ("archive.tar".data ++ '.' :: "mp3".data) =
        (if ('.' :: "mp3".data) ∈ mediaExtsData then 1 else 0) ∧
      is_image_or_video "archive.tar.mp3".data = 1 :=
  ⟨by decide,
    is_image_or_video_last_dot_only "archive.tar".data "mp3".data
      (by decide),
    by decide⟩

/-- Claim C6: the empty filename is accepted and classified negatively. -/
theorem is_image_or_video_empty : is_image_or_video "".data = 0 := by
  decide

/-- Claim C7: a filename whose last-dot extension is not one of the five
listed values returns 0. -/
theorem is_image_or_video_unlisted_ext (pre rest : List Char)
    (h : '.' ∉ rest) (hn : ('.' :: rest) ∉ mediaExtsData) :
    is_image_or_video (pre ++ '.' :: rest) = 0 := by
  rw [is_image_or_video_append_aux pre rest h, if_neg hn]

/-- Witness for C7 at the spec example "image.jpeg" (a near variant of
".jpg" that is not on the allow-list). -/
theorem is_image_or_video_unlisted_ext_witness :
    '.' ∉ "jpeg".data ∧ ('.' :: "jpeg".data) ∉ mediaExtsData ∧
      is_image_or_video ("image".data ++ '.' :: "jpeg".data) = 0 :=
  ⟨by decide, by decide,
    is_image_or_video_unlisted_ext "image".data "jpeg".data (by decide)
      (by decide)⟩

/-- Claim C8: `is_image_or_video` is deterministic: equal filename inputs
give equal results.  In this embedding the function is a total pure Lean
function of its input, so statelessness and absence of side effects hold
by construction; determinism is the expressible residue. -/
theorem is_image_or_video_deterministic (s t : List Char) (h : s = t) :
    is_image_or_video s = is_image_or_video t := by
  rw [h]

/-- Witness for C8 at two equal concrete inputs. -/
theorem is_image_or_video_deterministic_witness :
    "a.jpg".data = "a.jpg".data ∧
      is_image_or_video "a.jpg".data = is_image_or_video "a.jpg".data :=
  ⟨rfl, is_image_or_video_deterministic "a.jpg".data "a.jpg".data rfl⟩

/-- Claim C9: the returned integer is always 0 or 1. -/
theorem is_image_or_video_returns_bit (s : List Char) :
    is_image_or_video s = 0 ∨ is_image_or_video s = 1 := by
  cases hr : strrchr s '.' with
  | none => exact Or.inl (by rw [is_image_or_video, hr])
  | some ext =>
    rw [is_image_or_video_strrchr_some s ext hr]
    by_cases h : ext = ".jpg".data ∨ ext = ".png".data ∨
        ext = ".mp4".data ∨ ext = ".avi".data ∨ ext = ".mp3".data
    · exact Or.inr (by rw [if_pos h])
    · exact Or.inl (by rw [if_neg h])

/-- Claim C10: a filename that is exactly a listed extension (a dotfile
such as ".jpg") is classified as media, since the last dot is its first
character and the whole filename equals the extension. -/
theorem is_image_or_video_dotfile (e : List Char)
    (he : e ∈ mediaExtsData) : is_image_or_video e = 1 := by
  rcases (mem_mediaExtsData_iff e).mp he with h | h | h | h | h <;>
    rw [h] <;> decide

/-- Witness for C10 at the dotfiles ".jpg" and ".mp3". -/
theorem is_image_or_video_dotfile_witness :
    ".jpg".data ∈ mediaExtsData ∧ is_image_or_video ".jpg".data = 1 ∧
      is_image_or_video ".mp3".data = 1 :=
  ⟨by decide, is_image_or_video_dotfile ".jpg".data (by decide),
    is_image_or_video_dotfile ".mp3".data (by decide)⟩
